import Mathlib

/-!
Verification development for the secure-signer enclave service: the
slashing-protection state machine, the key-import/keygen key store, and the
command-line port handling of `main` in src/src/secure_signer.rs.

The slashing rules and key-store behaviour are modelled from the
specification (their implementation modules `beacon_signing.rs`,
`keys.rs` and `routes.rs` are not part of the staged sources); the
integration tests in src/src/secure_signer.rs fix the concrete ladders
that the model is checked against.  The port parsing and bind address are
embedded directly from `main`.
-/

namespace SecureSigner

/-! ### Slashing-protection record (spec section 4.4)

Modelled from the spec: one record per BLS public key, with three optional
monotone counters. -/

structure SlashingRecord where
  last_block_slot : Option Nat
  last_att_source : Option Nat
  last_att_target : Option Nat
deriving DecidableEq, Repr

/-- A key with no slashing record yet (the `Fresh` state). -/
def freshRecord : SlashingRecord := ⟨none, none, none⟩

/-- Modelled from the spec: block rule, accept iff
`last_block_slot = none or slot > last_block_slot`. -/
def blockAccepted (r : SlashingRecord) (slot : Nat) : Bool :=
  match r.last_block_slot with
  | none => true
  | some b => decide (b < slot)

/-- Modelled from the spec: attestation rule, reject iff
`tgt <= last_att_target` or `src < last_att_source` (missing fields pass). -/
def attAccepted (r : SlashingRecord) (src tgt : Nat) : Bool :=
  (match r.last_att_target with
   | none => true
   | some t => decide (t < tgt)) &&
  (match r.last_att_source with
   | none => true
   | some s => decide (s ≤ src))

/-- Modelled from the spec: on block accept, `last_block_slot <- slot`. -/
def commitBlock (r : SlashingRecord) (slot : Nat) : SlashingRecord :=
  { r with last_block_slot := some slot }

/-- Modelled from the spec: on attestation accept,
`last_att_source <- max(src, last_att_source)` and `last_att_target <- tgt`. -/
def commitAtt (r : SlashingRecord) (src tgt : Nat) : SlashingRecord :=
  { r with last_att_source := some (max src ((r.last_att_source).getD src)),
           last_att_target := some tgt }

/-- The sign-request kinds exercised by the staged tests: block proposal and
attestation are slashable, RANDAO reveal and aggregate-and-proof are not. -/
inductive SignRequest where
  | blockProposal (slot : Nat)
  | attestation (source target : Nat)
  | randaoReveal (epoch : Nat)
  | aggregateAndProof (slot selection_proof : Nat)
deriving DecidableEq, Repr

/-- Which request kinds are subject to a slashing check. -/
def isSlashableKind : SignRequest → Bool
  | .blockProposal _ => true
  | .attestation _ _ => true
  | .randaoReveal _ => false
  | .aggregateAndProof _ _ => false

/-- Modelled from the spec: the slashable-kind path of the signing pipeline,
returning the HTTP status (200 accept, 412 slashable refusal) and the
updated record.  Non-slashable kinds skip the check and leave the record
unchanged. -/
def handleSign (r : SlashingRecord) : SignRequest → Nat × SlashingRecord
  | .blockProposal slot =>
      if blockAccepted r slot then (200, commitBlock r slot) else (412, r)
  | .attestation src tgt =>
      if attAccepted r src tgt then (200, commitAtt r src tgt) else (412, r)
  | .randaoReveal _ => (200, r)
  | .aggregateAndProof _ _ => (200, r)

/-- Run a sequence of sign requests on one key, pairing each request with
the HTTP status it received. -/
def runOutcomes (r : SlashingRecord) : List SignRequest → List (SignRequest × Nat)
  | [] => []
  | req :: rest =>
      (req, (handleSign r req).1) :: runOutcomes (handleSign r req).2 rest

/-- The HTTP statuses of a run. -/
def runStatuses (r : SlashingRecord) (reqs : List SignRequest) : List Nat :=
  (runOutcomes r reqs).map Prod.snd

/-- The record left after a run. -/
def finalRecord (r : SlashingRecord) : List SignRequest → SlashingRecord
  | [] => r
  | req :: rest => finalRecord (handleSign r req).2 rest

/-- Slots of the accepted block-proposal commits of a run. -/
def acceptedBlockSlots (tr : List (SignRequest × Nat)) : List Nat :=
  tr.filterMap (fun rc =>
    match rc.1 with
    | .blockProposal slot => if rc.2 = 200 then some slot else none
    | _ => none)

/-- `(source, target)` pairs of the accepted attestation commits of a run. -/
def acceptedAtts (tr : List (SignRequest × Nat)) : List (Nat × Nat) :=
  tr.filterMap (fun rc =>
    match rc.1 with
    | .attestation src tgt => if rc.2 = 200 then some (src, tgt) else none
    | _ => none)

/-- The block-proposal ladder exercised by `test_bls_sign_route_block_type`. -/
def blockLadder : List SignRequest :=
  [.blockProposal 0xfe, .blockProposal 0xfe, .blockProposal 0xfd, .blockProposal 0xff]

/-- The attestation ladder exercised by `test_bls_sign_route_attestation_type`. -/
def attLadder : List SignRequest :=
  [.attestation 0x0a 0x0b, .attestation 0x00 0x0c, .attestation 0x0a 0x0b,
   .attestation 0x0a 0x0c, .attestation 0x0b 0x0d]

/-- C1: a block-proposal sign request at slot `s` succeeds with 200 and sets
`last_block_slot := s` exactly when the record is fresh or `s` is strictly
above the recorded `last_block_slot`; otherwise it is refused with 412 and
the record is unchanged; and the fresh-key ladder 0xfe, 0xfe, 0xfd, 0xff
yields 200, 412, 412, 200 with final `last_block_slot = 0xff`. -/
theorem C1_block_slashing_rule :
    (∀ (r : SlashingRecord) (s : Nat),
        (blockAccepted r s = true ↔
          r.last_block_slot = none ∨ ∃ b, r.last_block_slot = some b ∧ b < s)
      ∧ (blockAccepted r s = true →
          handleSign r (.blockProposal s) = (200, { r with last_block_slot := some s }))
      ∧ (blockAccepted r s = false →
          handleSign r (.blockProposal s) = (412, r)))
  ∧ runStatuses freshRecord blockLadder = [200, 412, 412, 200]
  ∧ (finalRecord freshRecord blockLadder).last_block_slot = some 0xff := by
  refine ⟨fun r s => ⟨?_, ?_, ?_⟩, by decide, by decide⟩
  · cases h : r.last_block_slot <;> simp [blockAccepted, h]
  · intro h; simp [handleSign, h, commitBlock]
  · intro h; simp [handleSign, h]

/-- C2: an attestation sign request `(src, tgt)` is refused with 412 exactly
when the record holds a target at or above `tgt` or a source strictly above
`src`; otherwise it succeeds with 200, setting the source to
`max src last_att_source` and the target to `tgt`; equal source with a
strictly larger target is accepted; and the fresh-key ladder yields
200, 412, 412, 200, 200. -/
theorem C2_attestation_slashing_rule :
    (∀ (r : SlashingRecord) (src tgt : Nat),
        (attAccepted r src tgt = false ↔
          (∃ t, r.last_att_target = some t ∧ tgt ≤ t) ∨
          (∃ s, r.last_att_source = some s ∧ src < s))
      ∧ (attAccepted r src tgt = false →
          handleSign r (.attestation src tgt) = (412, r))
      ∧ (attAccepted r src tgt = true →
          handleSign r (.attestation src tgt)
            = (200, { r with
                      last_att_source := some (max src ((r.last_att_source).getD src)),
                      last_att_target := some tgt }))
      ∧ (∀ s t, r.last_att_source = some s → r.last_att_target = some t →
          t < tgt → attAccepted r s tgt = true))
  ∧ runStatuses freshRecord attLadder = [200, 412, 412, 200, 200] := by
  refine ⟨fun r src tgt => ⟨?_, ?_, ?_, ?_⟩, by decide⟩
  · cases ht : r.last_att_target <;> cases hs : r.last_att_source <;>
      simp [attAccepted, ht, hs]
    omega
  · intro h; simp [handleSign, h]
  · intro h; simp [handleSign, h, commitAtt]
  · intro s t hs ht hlt; simp [attAccepted, hs, ht, hlt]

lemma commitAtt_last_block_slot (r : SlashingRecord) (src tgt : Nat) :
    (commitAtt r src tgt).last_block_slot = r.last_block_slot := rfl

lemma commitBlock_last_att_source (r : SlashingRecord) (slot : Nat) :
    (commitBlock r slot).last_att_source = r.last_att_source := rfl

lemma commitBlock_last_att_target (r : SlashingRecord) (slot : Nat) :
    (commitBlock r slot).last_att_target = r.last_att_target := rfl

/-- Every accepted block slot of a run is strictly above the starting
record's `last_block_slot`, and the accepted slots are pairwise strictly
increasing. -/
lemma blockSlots_invariant (reqs : List SignRequest) : ∀ (r : SlashingRecord),
    (∀ x ∈ acceptedBlockSlots (runOutcomes r reqs),
        ∀ b, r.last_block_slot = some b → b < x)
  ∧ (acceptedBlockSlots (runOutcomes r reqs)).Pairwise (· < ·) := by
  induction reqs with
  | nil => intro r; simp [runOutcomes, acceptedBlockSlots]
  | cons req rest ih =>
    intro r
    cases req with
    | blockProposal slot =>
      by_cases h : blockAccepted r slot = true
      · have hacc : acceptedBlockSlots (runOutcomes r (.blockProposal slot :: rest))
            = slot :: acceptedBlockSlots (runOutcomes (commitBlock r slot) rest) := by
          simp [runOutcomes, handleSign, h, acceptedBlockSlots]
        have hslot : (commitBlock r slot).last_block_slot = some slot := rfl
        obtain ⟨bound, pw⟩ := ih (commitBlock r slot)
        have tail_gt : ∀ x ∈ acceptedBlockSlots (runOutcomes (commitBlock r slot) rest),
            slot < x := fun x hx => bound x hx slot hslot
        constructor
        · intro x hx b hb
          rw [hacc] at hx
          rcases List.mem_cons.mp hx with hx | hx
          · subst hx
            have := h
            rw [blockAccepted, hb] at this
            exact of_decide_eq_true this
          · have hb' : b < slot := by
              have := h
              rw [blockAccepted, hb] at this
              exact of_decide_eq_true this
            exact lt_trans hb' (tail_gt x hx)
        · rw [hacc]
          exact List.pairwise_cons.mpr ⟨tail_gt, pw⟩
      · have hacc : acceptedBlockSlots (runOutcomes r (.blockProposal slot :: rest))
            = acceptedBlockSlots (runOutcomes r rest) := by
          simp [runOutcomes, handleSign, h, acceptedBlockSlots]
        rw [hacc]; exact ih r
    | attestation src tgt =>
      have hacc : acceptedBlockSlots (runOutcomes r (.attestation src tgt :: rest))
          = acceptedBlockSlots (runOutcomes (handleSign r (.attestation src tgt)).2 rest) := by
        simp [runOutcomes, acceptedBlockSlots]
      have hpres : (handleSign r (.attestation src tgt)).2.last_block_slot
          = r.last_block_slot := by
        rw [handleSign]; split <;> rfl
      rw [hacc]
      obtain ⟨bound, pw⟩ := ih (handleSign r (.attestation src tgt)).2
      exact ⟨fun x hx b hb => bound x hx b (by rw [hpres, hb]), pw⟩
    | randaoReveal e =>
      have hacc : acceptedBlockSlots (runOutcomes r (.randaoReveal e :: rest))
          = acceptedBlockSlots (runOutcomes r rest) := by
        simp [runOutcomes, handleSign, acceptedBlockSlots]
      rw [hacc]; exact ih r
    | aggregateAndProof s p =>
      have hacc : acceptedBlockSlots (runOutcomes r (.aggregateAndProof s p :: rest))
          = acceptedBlockSlots (runOutcomes r rest) := by
        simp [runOutcomes, handleSign, acceptedBlockSlots]
      rw [hacc]; exact ih r

/-- Every accepted attestation of a run is strictly above the starting
record's target and at or above its source, and along the run sources are
non-decreasing while targets strictly increase. -/
lemma atts_invariant (reqs : List SignRequest) : ∀ (r : SlashingRecord),
    (∀ p ∈ acceptedAtts (runOutcomes r reqs),
        (∀ t, r.last_att_target = some t → t < p.2) ∧
        (∀ s, r.last_att_source = some s → s ≤ p.1))
  ∧ (acceptedAtts (runOutcomes r reqs)).Pairwise (fun p q => p.1 ≤ q.1 ∧ p.2 < q.2) := by
  induction reqs with
  | nil => intro r; simp [runOutcomes, acceptedAtts]
  | cons req rest ih =>
    intro r
    cases req with
    | attestation src tgt =>
      by_cases h : attAccepted r src tgt = true
      · have hacc : acceptedAtts (runOutcomes r (.attestation src tgt :: rest))
            = (src, tgt) :: acceptedAtts (runOutcomes (commitAtt r src tgt) rest) := by
          simp [runOutcomes, handleSign, h, acceptedAtts]
        have htgt : (commitAtt r src tgt).last_att_target = some tgt := rfl
        have hsrc : (commitAtt r src tgt).last_att_source
            = some (max src ((r.last_att_source).getD src)) := rfl
        obtain ⟨bound, pw⟩ := ih (commitAtt r src tgt)
        have tail_tgt : ∀ p ∈ acceptedAtts (runOutcomes (commitAtt r src tgt) rest),
            tgt < p.2 := fun p hp => (bound p hp).1 tgt htgt
        have tail_src : ∀ p ∈ acceptedAtts (runOutcomes (commitAtt r src tgt) rest),
            max src ((r.last_att_source).getD src) ≤ p.1 :=
          fun p hp => (bound p hp).2 _ hsrc
        have tail_src' : ∀ p ∈ acceptedAtts (runOutcomes (commitAtt r src tgt) rest),
            src ≤ p.1 := fun p hp => le_trans (le_max_left _ _) (tail_src p hp)
        constructor
        · intro p hp
          rw [hacc] at hp
          rcases List.mem_cons.mp hp with hp | hp
          · subst hp
            refine ⟨fun t ht => ?_, fun s hs => ?_⟩
            · have := h; rw [attAccepted, ht] at this
              simp at this
              exact this.1
            · have := h; rw [attAccepted, hs] at this
              simp at this
              rcases r.last_att_target with _ | t <;> simp_all
          · refine ⟨fun t ht => ?_, fun s hs => ?_⟩
            · have ht' : t < tgt := by
                have := h; rw [attAccepted, ht] at this
                simp at this
                exact this.1
              exact lt_trans ht' (tail_tgt p hp)
            · have : max src ((r.last_att_source).getD src) ≤ p.1 := tail_src p hp
              rw [hs] at this
              exact le_trans (le_trans (le_max_right _ _) (le_of_eq rfl)) this
        · rw [hacc]
          exact List.pairwise_cons.mpr
            ⟨fun p hp => ⟨tail_src' p hp, tail_tgt p hp⟩, pw⟩
      · have hacc : acceptedAtts (runOutcomes r (.attestation src tgt :: rest))
            = acceptedAtts (runOutcomes r rest) := by
          simp [runOutcomes, handleSign, h, acceptedAtts]
        rw [hacc]; exact ih r
    | blockProposal slot =>
      have hacc : acceptedAtts (runOutcomes r (.blockProposal slot :: rest))
          = acceptedAtts (runOutcomes (handleSign r (.blockProposal slot)).2 rest) := by
        simp [runOutcomes, acceptedAtts]
      have hsrc : (handleSign r (.blockProposal slot)).2.last_att_source
          = r.last_att_source := by
        rw [handleSign]; split <;> rfl
      have htgt : (handleSign r (.blockProposal slot)).2.last_att_target
          = r.last_att_target := by
        rw [handleSign]; split <;> rfl
      rw [hacc]
      obtain ⟨bound, pw⟩ := ih (handleSign r (.blockProposal slot)).2
      refine ⟨fun p hp => ⟨fun t ht => (bound p hp).1 t (by rw [htgt, ht]),
        fun s hs => (bound p hp).2 s (by rw [hsrc, hs])⟩, pw⟩
    | randaoReveal e =>
      have hacc : acceptedAtts (runOutcomes r (.randaoReveal e :: rest))
          = acceptedAtts (runOutcomes r rest) := by
        simp [runOutcomes, handleSign, acceptedAtts]
      rw [hacc]; exact ih r
    | aggregateAndProof s p =>
      have hacc : acceptedAtts (runOutcomes r (.aggregateAndProof s p :: rest))
          = acceptedAtts (runOutcomes r rest) := by
        simp [runOutcomes, handleSign, acceptedAtts]
      rw [hacc]; exact ih r

/-- C3: on one key, for any finite request sequence starting from a fresh
record, the accepted block slots are strictly increasing, the accepted
attestation targets are pairwise distinct and strictly increasing, and no
accepted attestation pair is mutually surrounding. -/
theorem C3_accepted_commit_invariants :
    ∀ reqs : List SignRequest,
      (acceptedBlockSlots (runOutcomes freshRecord reqs)).Pairwise (· < ·)
    ∧ ((acceptedAtts (runOutcomes freshRecord reqs)).map Prod.snd).Pairwise (· ≠ ·)
    ∧ ((acceptedAtts (runOutcomes freshRecord reqs)).map Prod.snd).Pairwise (· < ·)
    ∧ (acceptedAtts (runOutcomes freshRecord reqs)).Pairwise
        (fun p q => ¬(p.1 < q.1 ∧ q.2 < p.2) ∧ ¬(q.1 < p.1 ∧ p.2 < q.2)) := by
  intro reqs
  have hb := (blockSlots_invariant reqs freshRecord).2
  have ha := (atts_invariant reqs freshRecord).2
  refine ⟨hb, ?_, ?_, ?_⟩
  · rw [List.pairwise_map]
    exact ha.imp (fun h => Nat.ne_of_lt h.2)
  · rw [List.pairwise_map]
    exact ha.imp (fun h => h.2)
  · exact ha.imp (fun h => ⟨fun hc => absurd h.2 (Nat.not_lt.mpr (le_of_lt hc.2)),
      fun hc => absurd h.1 (Nat.not_le.mpr hc.1)⟩)

/-- C4: requests that are neither block proposals nor attestations are not
checked against the slashing record: they return 200, never 412, leave the
record unchanged, and an identical repetition returns 200 again. -/
theorem C4_non_slashable_kinds :
    (∀ (r : SlashingRecord) (e : Nat), handleSign r (.randaoReveal e) = (200, r))
  ∧ (∀ (r : SlashingRecord) (s p : Nat),
        handleSign r (.aggregateAndProof s p) = (200, r))
  ∧ (∀ (r : SlashingRecord) (req : SignRequest), isSlashableKind req = false →
        handleSign r req = (200, r) ∧ runStatuses r [req, req] = [200, 200]) := by
  refine ⟨fun r e => rfl, fun r s p => rfl, fun r req h => ?_⟩
  cases req <;> simp_all [isSlashableKind, handleSign, runStatuses, runOutcomes]

/-! ### Key store, ECIES import and keygen (spec sections 4.1, 4.2, 6)

The key-store modules (`keys.rs`, `routes.rs`) are not part of the staged
sources; the definitions below are modelled from the spec, with ECIES in
the symbolic perfect-cryptography style and the key-derivation maps taken
as parameters. -/

/-- Modelled from the spec: a symbolic ECIES ciphertext, binding the payload
to the receiving public key. -/
structure EciesCt where
  to_pk : Nat
  payload : Nat
deriving DecidableEq, Repr

/-- Modelled from the spec: ECIES encryption to a secp256k1 public key. -/
def eciesEncrypt (pk m : Nat) : EciesCt := ⟨pk, m⟩

/-- Modelled from the spec: ECIES decryption succeeds exactly for the holder
of the matching secret key. -/
def eciesDecrypt (ethPkOf : Nat → Nat) (sk : Nat) (ct : EciesCt) : Option Nat :=
  if ethPkOf sk = ct.to_pk then some ct.payload else none

/-- The enclave's persistent key material: transport secret keys, imported
BLS public keys, generated BLS public keys. -/
structure KeyStore where
  ethSks : List Nat
  importedBls : List String
  generatedBls : List String
deriving DecidableEq, Repr

/-- The store before any keygen or import. -/
def emptyStore : KeyStore := ⟨[], [], []⟩

/-- One `{status, message}` entry of a keygen or import response. -/
structure KeyResponseData where
  status : String
  message : String
deriving DecidableEq, Repr

/-- The body POSTed to /eth/v1/keystores. -/
structure KeyImportRequest where
  ct_bls_sk : EciesCt
  bls_pk_hex : String
  encrypting_pk : Nat
deriving DecidableEq, Repr

/-- Modelled from the spec: POST /eth/v1/keygen/secp256k1 samples a fresh
transport secret key (explicit in this embedding), stores it and returns
its public key. -/
def ethKeyGen (ethPkOf : Nat → Nat) (st : KeyStore) (sk : Nat) : Nat × KeyStore :=
  (ethPkOf sk, { st with ethSks := st.ethSks ++ [sk] })

/-- Modelled from the spec: POST /eth/v1/keystores resolves the transport
secret key matching `encrypting_pk`, ECIES-decrypts the ciphertext, checks
the recovered scalar against the claimed BLS public key, stores that key,
and answers status "imported" with the claimed public key as message. -/
def importBls (ethPkOf : Nat → Nat) (blsPkHexOf : Nat → String)
    (st : KeyStore) (req : KeyImportRequest) : (Nat × KeyResponseData) × KeyStore :=
  match st.ethSks.find? (fun sk => ethPkOf sk == req.encrypting_pk) with
  | none => ((400, ⟨"error", req.bls_pk_hex⟩), st)
  | some ethSk =>
    match eciesDecrypt ethPkOf ethSk req.ct_bls_sk with
    | none => ((400, ⟨"error", req.bls_pk_hex⟩), st)
    | some blsSk =>
      if blsPkHexOf blsSk = req.bls_pk_hex then
        ((200, ⟨"imported", req.bls_pk_hex⟩),
         { st with importedBls := st.importedBls ++ [req.bls_pk_hex] })
      else ((400, ⟨"error", req.bls_pk_hex⟩), st)

/-- GET /eth/v1/keystores: the imported BLS public keys. -/
def listImported (st : KeyStore) : List String := st.importedBls

/-- GET /eth/v1/keygen/bls: the generated BLS public keys. -/
def listGenerated (st : KeyStore) : List String := st.generatedBls

/-- Lowercase hex digit of a nibble. -/
def hexDigit (n : Nat) : Char :=
  if n < 10 then Char.ofNat (48 + n) else Char.ofNat (87 + n)

/-- Big-endian lowercase hex rendering of the low `width` nibbles of `n`. -/
def hexDigits : Nat → Nat → List Char
  | 0, _ => []
  | w + 1, n => hexDigits w (n / 16) ++ [hexDigit (n % 16)]

/-- The character classes of lowercase hex. -/
def isLowerHexDigit (c : Char) : Bool :=
  (decide ('0' ≤ c) && decide (c ≤ '9')) || (decide ('a' ≤ c) && decide (c ≤ 'f'))

/-- A lowercase 0x-prefixed hex string with exactly `w` hex digits. -/
def isHexPkString (w : Nat) (s : String) : Prop :=
  s.data.take 2 = ['0', 'x'] ∧ (s.data.drop 2).length = w ∧
    ∀ c ∈ s.data.drop 2, isLowerHexDigit c = true

/-- Modelled from the spec: a BLS public key rendered as a lowercase
0x-prefixed hex string with exactly 96 hex digits (48-byte compressed G1). -/
def blsPkHexSpec (pk : Nat) : String := String.mk ('0' :: 'x' :: hexDigits 96 pk)

/-- Modelled from the spec: POST /eth/v1/keygen/bls samples a fresh BLS
secret key (explicit in this embedding), stores the derived public key and
answers status "generated" with the rendered public key as message. -/
def blsKeyGen (blsPkOf : Nat → Nat) (st : KeyStore) (sk : Nat) :
    (Nat × KeyResponseData) × KeyStore :=
  ((200, ⟨"generated", blsPkHexSpec (blsPkOf sk)⟩),
   { st with generatedBls := st.generatedBls ++ [blsPkHexSpec (blsPkOf sk)] })

/-- The encrypted-import scenario of the staged test
`mock_request_bls_key_import_route`: generate a transport keypair, encrypt
a locally generated BLS secret to its public key, and import with the
derived public key claimed. -/
def importScenario (ethPkOf : Nat → Nat) (blsPkHexOf : Nat → String)
    (ethSk blsSk : Nat) : (Nat × KeyResponseData) × KeyStore :=
  importBls ethPkOf blsPkHexOf (ethKeyGen ethPkOf emptyStore ethSk).2
    ⟨eciesEncrypt (ethKeyGen ethPkOf emptyStore ethSk).1 blsSk,
     blsPkHexOf blsSk, (ethKeyGen ethPkOf emptyStore ethSk).1⟩

lemma hexDigits_length (w : Nat) : ∀ n, (hexDigits w n).length = w := by
  induction w with
  | zero => intro n; rfl
  | succ w ih => intro n; simp [hexDigits, ih]

lemma hexDigit_lower (d : Nat) (hd : d < 16) : isLowerHexDigit (hexDigit d) = true := by
  interval_cases d <;> decide

lemma hexDigits_lower (w : Nat) : ∀ n, ∀ c ∈ hexDigits w n, isLowerHexDigit c = true := by
  induction w with
  | zero => intro n c hc; simp [hexDigits] at hc
  | succ w ih =>
    intro n c hc
    simp only [hexDigits, List.mem_append, List.mem_singleton] at hc
    rcases hc with hc | hc
    · exact ih _ c hc
    · subst hc; exact hexDigit_lower _ (Nat.mod_lt _ (by norm_num))

/-- C5: for any derivation maps and any sampled keys, the encrypted-import
scenario returns 200 with status "imported" and the claimed BLS public key
as message, and the subsequent key listing holds exactly that key. -/
theorem C5_import_round_trip :
    ∀ (ethPkOf : Nat → Nat) (blsPkHexOf : Nat → String) (ethSk blsSk : Nat),
      (importScenario ethPkOf blsPkHexOf ethSk blsSk).1.1 = 200
    ∧ (importScenario ethPkOf blsPkHexOf ethSk blsSk).1.2.status = "imported"
    ∧ (importScenario ethPkOf blsPkHexOf ethSk blsSk).1.2.message = blsPkHexOf blsSk
    ∧ listImported (importScenario ethPkOf blsPkHexOf ethSk blsSk).2
        = [blsPkHexOf blsSk] := by
  intro f g ethSk blsSk
  simp [importScenario, importBls, ethKeyGen, emptyStore, eciesEncrypt,
    eciesDecrypt, listImported]

/-- C6: for any derivation map and sampled secret, keygen answers 200 with
status "generated" and a 96-hex-digit lowercase 0x-prefixed message, and
the generated-key listing from the empty store holds exactly that key. -/
theorem C6_bls_keygen_format :
    ∀ (blsPkOf : Nat → Nat) (sk : Nat),
      (blsKeyGen blsPkOf emptyStore sk).1.1 = 200
    ∧ (blsKeyGen blsPkOf emptyStore sk).1.2.status = "generated"
    ∧ isHexPkString 96 (blsKeyGen blsPkOf emptyStore sk).1.2.message
    ∧ listGenerated (blsKeyGen blsPkOf emptyStore sk).2
        = [(blsKeyGen blsPkOf emptyStore sk).1.2.message] := by
  intro f sk
  refine ⟨rfl, rfl, ⟨rfl, ?_, ?_⟩, rfl⟩
  · show ((('0' :: 'x' :: hexDigits 96 (f sk)).drop 2).length = 96)
    simp [hexDigits_length]
  · intro c hc
    exact hexDigits_lower 96 (f sk) c (by simpa using hc)

/-- A 96-hex-digit public key exactly as the staged test supplies it: plain
lowercase hex with no 0x prefix, the shape hex::encode emits. -/
def plainPkHex : String := String.mk (hexDigits 96 0xdeadbeef)

/-- C7 as stated fails: the import route accepts a claimed public key given
as plain lowercase hex without a 0x prefix — as the staged test
`mock_request_bls_key_import_route` supplies it — and returns it verbatim
in the response message and the key listing, so the returned key is not a
0x-prefixed string. -/
theorem C7_counterexample_plain_hex_echo :
    (importBls (fun sk => sk) (fun _ => plainPkHex)
        { emptyStore with ethSks := [7] }
        ⟨eciesEncrypt 7 5, plainPkHex, 7⟩).1.1 = 200
  ∧ (importBls (fun sk => sk) (fun _ => plainPkHex)
        { emptyStore with ethSks := [7] }
        ⟨eciesEncrypt 7 5, plainPkHex, 7⟩).1.2.status = "imported"
  ∧ listImported (importBls (fun sk => sk) (fun _ => plainPkHex)
        { emptyStore with ethSks := [7] }
        ⟨eciesEncrypt 7 5, plainPkHex, 7⟩).2 = [plainPkHex]
  ∧ ¬ (plainPkHex.data.take 2 = ['0', 'x']) := by
  refine ⟨by decide, by decide, by decide, by decide⟩

/-- C7 amended: the HTTP interface echoes a claimed public key exactly as
supplied, with no 0x normalization, into the import response message and
the subsequent key listing; a returned key is 0x-prefixed only when the
client supplied it so (in-enclave keygen output keeps the spec's
96-hex-digit rendering). -/
theorem C7_import_echoes_claimed_pk :
    ∀ (ethPkOf : Nat → Nat) (blsPkHexOf : Nat → String) (st : KeyStore)
      (req : KeyImportRequest),
      (importBls ethPkOf blsPkHexOf st req).1.2.message = req.bls_pk_hex
    ∧ ((importBls ethPkOf blsPkHexOf st req).1.1 = 200 →
        listImported (importBls ethPkOf blsPkHexOf st req).2
          = listImported st ++ [req.bls_pk_hex]) := by
  intro f g st req
  cases hf : st.ethSks.find? (fun sk => f sk == req.encrypting_pk) with
  | none => simp [importBls, hf, listImported]
  | some ethSk =>
    cases hd : eciesDecrypt f ethSk req.ct_bls_sk with
    | none => simp [importBls, hf, hd, listImported]
    | some blsSk =>
      by_cases hc : g blsSk = req.bls_pk_hex
      · simp [importBls, hf, hd, hc, listImported]
      · simp [importBls, hf, hd, hc, listImported]

/-! ### Signing pipeline determinism (spec section 4.5) -/

/-- Modelled from the spec: the signing pipeline over a deterministic BLS
signature map from secret key and request; returns the HTTP status, the
signature when the request is accepted, and the updated record. -/
def signResponse (blsSign : Nat → SignRequest → String) (sk : Nat)
    (r : SlashingRecord) (req : SignRequest) :
    (Nat × Option String) × SlashingRecord :=
  ((( handleSign r req).1,
    if (handleSign r req).1 = 200 then some (blsSign sk req) else none),
   (handleSign r req).2)

/-- C8: the signature bytes depend only on the secret key and the message,
not on the slashing record — two accepted invocations of the same request
yield equal bytes — and a repeated identical request whose first run left
the record unchanged returns the identical response. -/
theorem C8_sign_deterministic_idempotent :
    ∀ (blsSign : Nat → SignRequest → String) (sk : Nat)
      (r r' : SlashingRecord) (req : SignRequest),
      ((signResponse blsSign sk r req).1.1 = 200 →
       (signResponse blsSign sk r' req).1.1 = 200 →
       (signResponse blsSign sk r req).1.2 = (signResponse blsSign sk r' req).1.2)
    ∧ ((signResponse blsSign sk r req).2 = r →
        signResponse blsSign sk (signResponse blsSign sk r req).2 req
          = signResponse blsSign sk r req) := by
  intro f sk r r' req
  constructor
  · intro h h'
    simp only [signResponse] at h h' ⊢
    rw [h, h']
  · intro h
    have h2 : (signResponse f sk r req).2 = r := h
    rw [h2]

/-! ### Command line and bind address, embedded from `main`
(src/src/secure_signer.rs lines 17-62) -/

/-- Rust `str::parse::<u16>` on a decimal string: an optional leading plus
sign, then at least one decimal digit, with the value below 2^16. -/
def parseU16 (s : String) : Option Nat :=
  let ds := if s.data.head? = some '+' then s.data.tail else s.data
  if ds.isEmpty then none
  else if ds.all (fun c => c.isDigit) then
    let n := ds.foldl (fun acc c => acc * 10 + (c.toNat - 48)) 0
    if n < 65536 then some n else none
  else none

/-- The port computation of `main`: argv index 1 (argv index 0 is the
program name), defaulting to the string "3031" when absent, parsed as u16,
aborting with "BAD PORT" when the parse fails. -/
def mainPort (argv : List String) : Except String Nat :=
  match parseU16 ((argv.get? 1).getD "3031") with
  | some p => Except.ok p
  | none => Except.error "BAD PORT"

/-- The address `main` passes to `warp::serve(...).run`. -/
def bindAddr : List Nat := [127, 0, 0, 1]

/-- An IPv4 address is loopback when its first octet is 127. -/
def isLoopback (a : List Nat) : Bool := a.head? == some 127

/-- C9: the port is taken from the single positional argument, defaulting
to 3031 when no argument is given, and the server binds the loopback
address 127.0.0.1 only. -/
theorem C9_cli_port_and_bind :
    (∀ prog : String, mainPort [prog] = Except.ok 3031)
  ∧ (∀ (prog arg : String) (rest : List String),
        mainPort (prog :: arg :: rest)
          = match parseU16 arg with
            | some p => Except.ok p
            | none => Except.error "BAD PORT")
  ∧ mainPort ["secure-signer", "8080"] = Except.ok 8080
  ∧ bindAddr = [127, 0, 0, 1] ∧ isLoopback bindAddr = true := by
  refine ⟨fun prog => rfl, fun prog arg rest => rfl, rfl, rfl, rfl⟩

/-- C10: a present first argument that does not parse as a u16 — a
non-numeric string or a value above 65535 — aborts with "BAD PORT" rather
than falling back to the default; the default 3031 is produced only on a
missing argument. -/
theorem C10_bad_port_abort :
    (∀ (prog arg : String) (rest : List String), parseU16 arg = none →
        mainPort (prog :: arg :: rest) = Except.error "BAD PORT")
  ∧ parseU16 "abc" = none
  ∧ parseU16 "65536" = none
  ∧ parseU16 "65535" = some 65535
  ∧ mainPort ["secure-signer", "abc"] = Except.error "BAD PORT"
  ∧ mainPort ["secure-signer", "65536"] = Except.error "BAD PORT"
  ∧ (∀ (prog arg : String) (rest : List String) (p : Nat),
        mainPort (prog :: arg :: rest) = Except.ok p → parseU16 arg = some p)
  ∧ mainPort ["secure-signer"] = Except.ok 3031 := by
  refine ⟨?_, by decide, by decide, by decide, rfl, rfl, ?_, rfl⟩
  · intro prog arg rest h
    simp [mainPort, h]
  · intro prog arg rest p h
    rcases hp : parseU16 arg with _ | v
    · simp [mainPort, hp] at h
    · simp [mainPort, hp] at h
      rw [h]

end SecureSigner
